import Mathlib

/-!
Shallow embedding of the stake-weighted dispatch router in `src/app.py`
(class `ImageGenerationService`).

Python dictionaries keyed by strings (the in-memory validator registry,
the MongoDB collections, the auth-key cache) are modelled as association
lists `List (String × _)` in insertion order; dictionary insertion appends
at the end, exactly as CPython preserves insertion order.  MongoDB
`update_one`/`delete_one` act on the unique document with the given
`_id`, so the store lists carry a no-duplicate-keys invariant where a
proof needs it.

Machine-level aspects abstracted: stake weights (floats in bittensor)
become `Nat`; `random.choices(validators, weights=stakes, k=1)` draws a
uniform number `u` in `[0, total)` and picks by cumulative weights
(`weightedPick`), raising `ValueError` when the total weight is zero; the
uniform draw is supplied by an oracle `rng : Nat -> Nat` reduced modulo
the total.  The network and MongoDB outcomes of one dispatch attempt are
supplied by an oracle `world : String -> AttemptEvent` indexed by the
contacted validator hotkey (each hotkey is contacted at most once per
call, so a per-hotkey oracle loses nothing).
-/

/-- One day's success/failure counter of a validator
(`counter[str(date.today())]` in `app.py`). -/
structure DayCounter where
  succ : Nat
  fail : Nat
deriving DecidableEq, Repr

/-- A document of the `validators` collection / an entry of
`self.available_validators`: `generate_endpoint`, `is_active`, and the
per-date counters.  A missing `counter` field is modelled as `[]`. -/
structure ValidatorRec where
  generate_endpoint : String
  is_active : Bool
  counter : List (String × DayCounter)
deriving DecidableEq, Repr

/-- A document of the `auth_keys` collection; `request_count` is optional
because `generate` creates it with `setdefault` on first use. -/
structure AuthKeyRec where
  request_count : Option Nat
deriving DecidableEq, Repr

/-- The part of the bittensor metagraph the service reads: the membership
list `hotkeys` and the stake vector `total_stake` (aligned with
`hotkeys`; stakes are modelled as `Nat`). -/
structure Metagraph where
  hotkeys : List String
  total_stake : List Nat
deriving DecidableEq, Repr

/-- Association-list lookup: the value of the first pair whose key is
`k` (Python dict access / Mongo find by `_id`). -/
def alookup {α : Type} (k : String) : List (String × α) → Option α
  | [] => none
  | (k', v) :: rest => if k' = k then some v else alookup k rest

/-- Update the first entry with key `k` in place (no-op when the key is
absent); models in-place mutation of a dict entry and Mongo `update_one`
without upsert. -/
def aset {α : Type} (k : String) (f : α → α) : List (String × α) → List (String × α)
  | [] => []
  | (k', v) :: rest => if k' = k then (k', f v) :: rest else (k', v) :: aset k f rest

/-- Remove the first entry with key `k` (Mongo `delete_one` by `_id`). -/
def adelete {α : Type} (k : String) : List (String × α) → List (String × α)
  | [] => []
  | (k', v) :: rest => if k' = k then rest else (k', v) :: adelete k rest

/-- Set the entry with key `k` to `v`, appending it when absent (Mongo
`update_one` with `upsert=True`, dict insertion order preserved). -/
def aupsert {α : Type} (k : String) (v : α) : List (String × α) → List (String × α)
  | [] => [(k, v)]
  | (k', w) :: rest => if k' = k then (k', v) :: rest else (k', w) :: aupsert k v rest

/-- The mutable service state read and written by `generate`,
`get_credentials` and `filter_validators`: the in-memory registry
`available_validators`, the persisted `validators` collection, the
in-memory `auth_keys` cache and the persisted `auth_keys` collection. -/
structure ServiceState where
  validators : List (String × ValidatorRec)
  vstore : List (String × ValidatorRec)
  auth_keys : List (String × AuthKeyRec)
  astore : List (String × AuthKeyRec)
deriving DecidableEq, Repr

/-- `sync_db` (app.py 115-120): merge persisted validators not already in
memory, in store order, and replace the auth-key cache with a fresh read
of the `auth_keys` collection. -/
def mergeNew (mem store : List (String × ValidatorRec)) : List (String × ValidatorRec) :=
  store.foldl (fun acc p => if (alookup p.1 acc).isSome then acc else acc ++ [p]) mem

/-- `sync_db`: step 1 of every `generate` call. -/
def sync_db (st : ServiceState) : ServiceState :=
  { st with validators := mergeNew st.validators st.vstore, auth_keys := st.astore }

/-- A parsed JSON value as Python sees it; only its truthiness and an
abstract identity matter to the router.  `errObj msg` is the dict
constructed by `response = {"error": str(e)}` on a JSON parse failure
(a one-entry dict, hence truthy). -/
inductive Payload where
  | errObj (msg : String)
  | json (isTruthy : Bool) (id : Nat)
deriving DecidableEq, Repr

/-- Python truthiness of a payload, as used by `if output:` in
`generate`. -/
def Payload.truthy : Payload → Bool
  | .errObj _ => true
  | .json t _ => t

/-- Outcome of `response.json()`: a parsed payload, or an exception whose
message `msg` is turned into the dict `{"error": msg}`. -/
inductive BodyParse where
  | parsed (p : Payload)
  | parseFail (msg : String)
deriving DecidableEq, Repr

/-- Outcome of the best-effort persistence block (app.py 257-265): all
three statements succeed; `validators_collection.update_one` raises
(nothing is written, the auth-key increment is skipped); or
`auth_keys_collection.update_one` raises (the validator store write and
the in-memory auth-key increment already happened). -/
inductive DbEvent where
  | dbOk
  | failBeforeIncrement
  | failAfterIncrement
deriving DecidableEq, Repr

/-- Outcome of one dispatch attempt against a validator endpoint:
`transportError` is any exception from `client.post` (caught at app.py
240-242, which `continue`s); `httpResponse` is a completed HTTP exchange
with its status code, body-parse outcome, and persistence outcome. -/
inductive AttemptEvent where
  | transportError
  | httpResponse (status : Nat) (body : BodyParse) (db : DbEvent)
deriving DecidableEq, Repr

/-- The payload Python binds to `response` after the `json()` try/except
(app.py 244-247). -/
def parsedPayload : BodyParse → Payload
  | .parsed p => p
  | .parseFail msg => .errObj msg

/-- Whether an attempt sets a truthy `output` in `generate`: status code
exactly 200 and a truthy parsed body. -/
def attemptSucceeds : AttemptEvent → Bool
  | .transportError => false
  | .httpResponse status body _ => status == 200 && (parsedPayload body).truthy

/-- The payload an attempt would return on success. -/
def payloadOf : AttemptEvent → Payload
  | .transportError => .errObj ""
  | .httpResponse _ body _ => parsedPayload body

/-- Whether the persistence block reaches the in-memory
`request_count` increment: any HTTP response whose
`validators_collection.update_one` did not raise. -/
def dbBumps : AttemptEvent → Bool
  | .transportError => false
  | .httpResponse _ _ .failBeforeIncrement => false
  | .httpResponse _ _ _ => true

/-- How a `generate` call can end: a validator's payload, the 401 from
`check_auth`, the 404 `No available validators`, the 500
`All validators failed`, or the uncaught `ValueError` that
`random.choices` raises when the total remaining weight is zero. -/
inductive DispatchResult where
  | ok (p : Payload)
  | authError
  | noValidators
  | allFailed
  | valueError
deriving DecidableEq, Repr

/-- Result of a `generate` call: the outcome, the final service state,
and the hotkeys contacted, in order. -/
structure DispatchOut where
  result : DispatchResult
  state : ServiceState
  contacted : List String
deriving DecidableEq, Repr

/-- `today_counter` read: the validator's counter for date `d`, with the
`setdefault` default. -/
def getToday (r : ValidatorRec) (d : String) : DayCounter :=
  (alookup d r.counter).getD ⟨0, 0⟩

/-- `validator_counter.setdefault(str(date.today()), {"success": 0, "failure": 0})`:
ensure the entry for date `d` exists (appended at the end when new). -/
def ensureToday (r : ValidatorRec) (d : String) : ValidatorRec :=
  if (alookup d r.counter).isSome then r
  else { r with counter := r.counter ++ [(d, ⟨0, 0⟩)] }

/-- `today_counter["success"] += 1` / `today_counter["failure"] += 1`. -/
def bumpToday (r : ValidatorRec) (d : String) (ok : Bool) : ValidatorRec :=
  { r with
    counter :=
      aset d (fun c => if ok then { c with succ := c.succ + 1 } else { c with fail := c.fail + 1 })
        r.counter }

/-- App.py 219-224 as a state update on the contacted validator. -/
def touchToday (st : ServiceState) (hk d : String) : ServiceState :=
  { st with validators := aset hk (fun r => ensureToday r d) st.validators }

/-- App.py 253-256 as a state update on the contacted validator. -/
def bumpState (st : ServiceState) (hk d : String) (ok : Bool) : ServiceState :=
  { st with validators := aset hk (fun r => bumpToday r d ok) st.validators }

/-- `validators_collection.update_one({_id: hotkey}, {$set: mem-record})`
(no upsert): copy the in-memory record of `hk` over the store document
when both exist. -/
def pushValidator (st : ServiceState) (hk : String) : ServiceState :=
  match alookup hk st.validators with
  | none => st
  | some r => { st with vstore := aset hk (fun _ => r) st.vstore }

/-- `self.auth_keys[key].setdefault("request_count", 0)` followed by
`+= 1`. -/
def bumpAuth (r : AuthKeyRec) : AuthKeyRec :=
  ⟨some (r.request_count.getD 0 + 1)⟩

/-- `auth_keys_collection.update_one({_id: key}, {$set: cache-record})`
(no upsert): copy the in-memory auth-key record of `key` over the store
document when both exist. -/
def pushAuthKey (st : ServiceState) (key : String) : ServiceState :=
  match alookup key st.auth_keys with
  | none => st
  | some r => { st with astore := aset key (fun _ => r) st.astore }

/-- The try-block of app.py 257-265: push the validator record to the
store, increment the in-memory `request_count`, and push the auth-key
record to the store, cut short at the point where the given `DbEvent`
says an exception was raised (the except clause swallows it). -/
def applyDb (st : ServiceState) (hk key : String) : DbEvent → ServiceState
  | .failBeforeIncrement => st
  | .failAfterIncrement =>
      let st1 := pushValidator st hk
      { st1 with auth_keys := aset key bumpAuth st1.auth_keys }
  | .dbOk =>
      let st1 := pushValidator st hk
      pushAuthKey { st1 with auth_keys := aset key bumpAuth st1.auth_keys } key

/-- Everything one loop iteration of `generate` does to the service state
after sampling hotkey `hk`, as dictated by the attempt's event. -/
def stepState (st : ServiceState) (hk key today : String) : AttemptEvent → ServiceState
  | .transportError => touchToday st hk today
  | .httpResponse status body db =>
      applyDb
        (bumpState (touchToday st hk today) hk today
          (status == 200 && (parsedPayload body).truthy))
        hk key db

/-- The record of the contacted validator after one attempt (counter
entry for `d` ensured, then bumped unless the attempt died in
transport). -/
def applyAttempt (r : ValidatorRec) (d : String) : AttemptEvent → ValidatorRec
  | .transportError => ensureToday r d
  | .httpResponse status body _ =>
      bumpToday (ensureToday r d) d (status == 200 && (parsedPayload body).truthy)

/-- `random.choices(validators, weights=stakes, k=1)` determinised: given
a draw `u < ws.sum`, the index selected by cumulative weights
(`bisect_right` over the cumulative sums). -/
def weightedPick : List Nat → Nat → Nat
  | [], _ => 0
  | w :: ws, u => if u < w then 0 else weightedPick ws (u - w) + 1

/-- Stake joined to a hotkey:
`self.metagraph.total_stake[self.metagraph.hotkeys.index(hotkey)]`
(app.py 205); `hotkeys.index` is the first index of the hotkey. -/
def stakeOf (mg : Metagraph) (hk : String) : Nat :=
  mg.total_stake.getD (mg.hotkeys.indexOf hk) 0

/-- App.py 199-204: hotkeys of in-memory validators with
`is_active = true` whose hotkey is in the metagraph membership. -/
def eligibleHotkeys (st : ServiceState) (mg : Metagraph) : List String :=
  ((st.validators.filter (fun p => p.2.is_active)).map Prod.fst).filter
    (fun hk => mg.hotkeys.contains hk)

/-- App.py 205-207: the candidate pool `validators = list(zip(hotkeys, stakes))`. -/
def eligibleCands (st : ServiceState) (mg : Metagraph) : List (String × Nat) :=
  (eligibleHotkeys st mg).map (fun hk => (hk, stakeOf mg hk))

/-- The retry loop of `generate` (app.py 214-267).  `fuel` is an upper
bound on the number of iterations, instantiated with the initial pool
size (each iteration removes exactly one candidate, so the bound is
exact); `k` counts RNG draws.  Exits: pool exhausted (app.py 268-271
classifies by emptiness of the whole in-memory registry), zero total
weight (`random.choices` raises `ValueError`), a successful attempt, or
the fuel-exhaustion case that is unreachable from `generate`. -/
def dispatchLoop (key today : String) (world : String → AttemptEvent) (rng : Nat → Nat) :
    Nat → Nat → List (String × Nat) → ServiceState → List String → DispatchOut
  | _, _, [], st, log =>
      ⟨if st.validators.isEmpty then .noValidators else .allFailed, st, log⟩
  | 0, _, _ :: _, st, log => ⟨.valueError, st, log⟩
  | fuel + 1, k, c0 :: cs, st, log =>
      let cands := c0 :: cs
      let total := (cands.map Prod.snd).sum
      if total = 0 then ⟨.valueError, st, log⟩
      else
        let c := cands.getD (weightedPick (cands.map Prod.snd) (rng k % total)) c0
        let e := world c.1
        let st' := stepState st c.1 key today e
        if attemptSucceeds e then ⟨.ok (payloadOf e), st', log ++ [c.1]⟩
        else dispatchLoop key today world rng fuel (k + 1) (cands.erase c) st' (log ++ [c.1])

/-- `generate` (app.py 196-272): sync from the store, check the auth key
against a fresh read of the `auth_keys` collection (401 on miss), build
the stake-weighted candidate pool, and run the retry loop. -/
def generate (st : ServiceState) (mg : Metagraph) (key today : String)
    (world : String → AttemptEvent) (rng : Nat → Nat) : DispatchOut :=
  let st1 := sync_db st
  if (alookup key st1.astore).isNone then ⟨.authError, st1, []⟩
  else
    let cands := eligibleCands st1 mg
    dispatchLoop key today world rng cands.length 0 cands st1 []

/-- How a `get_credentials` call can fail: `self.metagraph.hotkeys[uid]`
raises an uncaught `IndexError` (surfacing as a 500), or the explicit
404 `Invalid postfix`. -/
inductive RegError where
  | indexError
  | invalidPostfix
deriving DecidableEq, Repr

/-- Result of a `get_credentials` call: the error if any, the service
state afterwards, and the returned `(message, signature)` proof. -/
structure RegOut where
  error : Option RegError
  state : ServiceState
  cred : Option (String × String)
deriving DecidableEq, Repr

/-- Python list indexing `l[i]` with negative-index semantics:
`l[i]` for `0 <= i < len` and `l[len + i]` for `-len <= i < 0`, raising
`IndexError` (here `none`) otherwise. -/
def pyGet (l : List String) (i : Int) : Option String :=
  if 0 ≤ i then l.get? i.toNat
  else if i.natAbs ≤ l.length then l.get? (l.length - i.natAbs)
  else none

/-- `get_credentials` (app.py 164-194).  Note the order taken from the
source: the hotkey is resolved from `uid` (line 169, may raise
`IndexError`) before the empty-postfix check (line 172).  On success the
in-memory registry entry is created or updated in place
(`setdefault` + `update`) and the store document is upserted with the
full in-memory record. -/
def get_credentials (st : ServiceState) (mg : Metagraph) (msg sig clientIp : String)
    (uid : Int) (pfx : String) : RegOut :=
  match pyGet mg.hotkeys uid with
  | none => ⟨some .indexError, st, none⟩
  | some hotkey =>
      if pfx = "" then ⟨some .invalidPostfix, st, none⟩
      else
        let endpoint := "http://" ++ clientIp ++ pfx
        let validators' :=
          match alookup hotkey st.validators with
          | some _ =>
              aset hotkey
                (fun r => { r with generate_endpoint := endpoint, is_active := true })
                st.validators
          | none => st.validators ++ [(hotkey, ⟨endpoint, true, []⟩)]
        match alookup hotkey validators' with
        | none => ⟨none, { st with validators := validators' }, some (msg, sig)⟩
        | some newRec =>
            ⟨none,
              { st with validators := validators', vstore := aupsert hotkey newRec st.vstore },
              some (msg, sig)⟩

/-- Arguments of one `get_credentials` call (the caller address and body
fields it reads). -/
structure RegCall where
  clientIp : String
  uid : Int
  pfx : String
deriving DecidableEq, Repr

/-- The state transformer of one registration call. -/
def applyRegistration (mg : Metagraph) (msg sig : String) (st : ServiceState)
    (c : RegCall) : ServiceState :=
  (get_credentials st mg msg sig c.clientIp c.uid c.pfx).state

/-- `filter_validators` (app.py 122-128): walk the in-memory keys,
setting `is_active = False` on each, and delete every validator whose
hotkey is not in the membership list from both the store and memory.
Returns the new in-memory registry and the new store. -/
def filter_validators :
    List (String × ValidatorRec) → List (String × ValidatorRec) → List String →
      List (String × ValidatorRec) × List (String × ValidatorRec)
  | [], store, _ => ([], store)
  | (hk, r) :: rest, store, mem =>
      if mem.contains hk then
        let out := filter_validators rest store mem
        ((hk, { r with is_active := false }) :: out.1, out.2)
      else filter_validators rest (adelete hk store) mem

/-- The whole-process state seen by the background metagraph loop. -/
structure FullState where
  metagraph : Metagraph
  service : ServiceState
deriving DecidableEq, Repr

/-- One iteration of `sync_metagraph_periodically` (app.py 154-158): the
loop body only runs `self.metagraph.sync(subtensor=..., lite=True)`,
replacing the metagraph snapshot with the freshly fetched one, then
sleeps.  It touches nothing else. -/
def sync_metagraph_iteration (st : FullState) (freshMg : Metagraph) : FullState :=
  { st with metagraph := freshMg }

/-- In-memory failure count of validator `hk` for date `d`. -/
def todayFail (st : ServiceState) (hk d : String) : Nat :=
  match alookup hk st.validators with
  | none => 0
  | some r => (getToday r d).fail

/-- In-memory success count of validator `hk` for date `d`. -/
def todaySucc (st : ServiceState) (hk d : String) : Nat :=
  match alookup hk st.validators with
  | none => 0
  | some r => (getToday r d).succ

/-- In-memory `request_count` of auth key `key` (0 when the key or the
field is absent). -/
def reqCount (st : ServiceState) (key : String) : Nat :=
  match alookup key st.auth_keys with
  | none => 0
  | some r => r.request_count.getD 0

/-! ### Association-list lemmas -/

theorem alookup_aset_self {α : Type} (k : String) (f : α → α) (l : List (String × α)) :
    alookup k (aset k f l) = (alookup k l).map f := by
  induction l with
  | nil => rfl
  | cons p rest ih =>
      obtain ⟨k', v⟩ := p
      by_cases h : k' = k <;> simp [aset, alookup, h, ih]

theorem alookup_aset_ne {α : Type} {k j : String} (h : k ≠ j) (f : α → α)
    (l : List (String × α)) : alookup j (aset k f l) = alookup j l := by
  induction l with
  | nil => rfl
  | cons p rest ih =>
      obtain ⟨k', v⟩ := p
      by_cases h1 : k' = k
      · subst h1; simp [aset, alookup, h, ih]
      · by_cases h2 : k' = j
        · subst h2
          have hk : ¬(k' = k) := h1
          simp [aset, alookup, hk]
        · simp [aset, alookup, h1, h2, ih]

theorem map_fst_aset {α : Type} (k : String) (f : α → α) (l : List (String × α)) :
    (aset k f l).map Prod.fst = l.map Prod.fst := by
  induction l with
  | nil => rfl
  | cons p rest ih =>
      obtain ⟨k', v⟩ := p
      by_cases h : k' = k <;> simp [aset, h, ih]

theorem alookup_eq_none_iff {α : Type} (k : String) (l : List (String × α)) :
    alookup k l = none ↔ k ∉ l.map Prod.fst := by
  induction l with
  | nil => simp [alookup]
  | cons p rest ih =>
      obtain ⟨k', v⟩ := p
      by_cases h : k' = k
      · subst h; simp [alookup]
      · have hk : ¬(k = k') := fun hh => h hh.symm
        simp [alookup, h, ih, hk]

theorem alookup_isSome_iff {α : Type} (k : String) (l : List (String × α)) :
    (alookup k l).isSome = true ↔ k ∈ l.map Prod.fst := by
  have hnone := alookup_eq_none_iff k l
  cases h : alookup k l <;> simp_all

theorem alookup_append_left {α : Type} {k : String} {l1 : List (String × α)} {v : α}
    (h : alookup k l1 = some v) (l2 : List (String × α)) :
    alookup k (l1 ++ l2) = some v := by
  induction l1 with
  | nil => simp [alookup] at h
  | cons p rest ih =>
      obtain ⟨k', w⟩ := p
      by_cases h1 : k' = k <;> simp_all [alookup]

theorem alookup_append_right {α : Type} {k : String} {l1 : List (String × α)}
    (h : alookup k l1 = none) (l2 : List (String × α)) :
    alookup k (l1 ++ l2) = alookup k l2 := by
  induction l1 with
  | nil => rfl
  | cons p rest ih =>
      obtain ⟨k', w⟩ := p
      by_cases h1 : k' = k <;> simp_all [alookup]

theorem alookup_adelete_ne {α : Type} {k j : String} (h : k ≠ j)
    (l : List (String × α)) : alookup j (adelete k l) = alookup j l := by
  induction l with
  | nil => rfl
  | cons p rest ih =>
      obtain ⟨k', v⟩ := p
      by_cases h1 : k' = k
      · subst h1; simp [adelete, alookup, h, ih]
      · by_cases h2 : k' = j
        · subst h2
          have hk : ¬(k' = k) := h1
          simp [adelete, alookup, hk]
        · simp [adelete, alookup, h1, h2, ih]

theorem adelete_sublist {α : Type} (k : String) (l : List (String × α)) :
    (adelete k l).Sublist l := by
  induction l with
  | nil => simp [adelete]
  | cons p rest ih =>
      obtain ⟨k', v⟩ := p
      by_cases h : k' = k
      · simp only [adelete, if_pos h]
        exact List.sublist_cons_self (k', v) rest
      · simp only [adelete, if_neg h]
        exact ih.cons₂ (k', v)

theorem alookup_adelete_self {α : Type} {k : String} {l : List (String × α)}
    (h : (l.map Prod.fst).Nodup) : alookup k (adelete k l) = none := by
  induction l with
  | nil => rfl
  | cons p rest ih =>
      obtain ⟨k', v⟩ := p
      simp only [List.map_cons, List.nodup_cons] at h
      by_cases h1 : k' = k
      · subst h1
        rw [adelete, if_pos rfl, alookup_eq_none_iff]
        exact h.1
      · rw [adelete, if_neg h1, alookup, if_neg h1]
        exact ih h.2

theorem map_fst_adelete_nodup {α : Type} {k : String} {l : List (String × α)}
    (h : (l.map Prod.fst).Nodup) : ((adelete k l).map Prod.fst).Nodup :=
  List.Nodup.sublist (List.Sublist.map Prod.fst (adelete_sublist k l)) h

/-! ### Weighted sampling lemmas -/

theorem weightedPick_lt {ws : List Nat} {u : Nat} (h : u < ws.sum) :
    weightedPick ws u < ws.length := by
  induction ws generalizing u with
  | nil => simp at h
  | cons w ws ih =>
      rw [List.sum_cons] at h
      by_cases h1 : u < w
      · simp [weightedPick, h1]
      · have : u - w < ws.sum := by omega
        simpa [weightedPick, h1] using ih this

/-- Exact stake-proportionality of the determinised `random.choices`: over
the `ws.sum` equally likely draws, candidate `i` is selected exactly
`ws.get i` times. -/
theorem weightedPick_range_countP (ws : List Nat) (i : Fin ws.length) :
    (List.range ws.sum).countP (fun u => weightedPick ws u == i.1) = ws.get i := by
  induction ws with
  | nil => exact absurd i.2 (by simp)
  | cons w ws ih =>
      obtain ⟨iv, hi⟩ := i
      rw [List.sum_cons, List.range_add, List.countP_append, List.countP_map]
      cases iv with
      | zero =>
          have h1 : (List.range w).countP (fun u => weightedPick (w :: ws) u == 0) =
              (List.range w).length := by
            rw [List.countP_eq_length]
            intro u hu
            rw [List.mem_range] at hu
            simp [weightedPick, hu]
          have h2 : (List.range ws.sum).countP
              ((fun u => weightedPick (w :: ws) u == 0) ∘ (fun x => w + x)) = 0 := by
            rw [List.countP_eq_zero]
            intro u _
            have hlt : ¬ (w + u < w) := by omega
            simp [weightedPick, hlt]
          rw [h1, h2, List.length_range]
          simp
      | succ j =>
          have hj : j < ws.length := by simpa using hi
          have h1 : (List.range w).countP (fun u => weightedPick (w :: ws) u == j + 1) = 0 := by
            rw [List.countP_eq_zero]
            intro u hu
            rw [List.mem_range] at hu
            simp [weightedPick, hu]
          have h2 : (List.range ws.sum).countP
              ((fun u => weightedPick (w :: ws) u == j + 1) ∘ (fun x => w + x)) =
              (List.range ws.sum).countP (fun u => weightedPick ws u == j) := by
            apply List.countP_congr
            intro u _
            have hlt : ¬ (w + u < w) := by omega
            have hsub : w + u - w = u := by omega
            simp [weightedPick, hlt, hsub]
          rw [h1, h2, ih ⟨j, hj⟩]
          simp

/-! ### Per-attempt state-update lemmas -/

theorem getToday_ensureToday (r : ValidatorRec) (d : String) :
    alookup d (ensureToday r d).counter = some (getToday r d) := by
  unfold ensureToday getToday
  cases h : alookup d r.counter with
  | none => simp [h, alookup_append_right h, alookup]
  | some c => simp [h]

theorem getToday_applyAttempt_transport (r : ValidatorRec) (d : String) :
    getToday (applyAttempt r d .transportError) d = getToday r d := by
  unfold applyAttempt getToday
  rw [getToday_ensureToday]
  rfl

theorem getToday_applyAttempt_response (r : ValidatorRec) (d : String) (status : Nat)
    (body : BodyParse) (db : DbEvent) :
    getToday (applyAttempt r d (.httpResponse status body db)) d =
      if status == 200 && (parsedPayload body).truthy
      then ⟨(getToday r d).succ + 1, (getToday r d).fail⟩
      else ⟨(getToday r d).succ, (getToday r d).fail + 1⟩ := by
  have hb := getToday_ensureToday r d
  by_cases h : (status == 200 && (parsedPayload body).truthy) = true <;>
    simp [applyAttempt, bumpToday, getToday, alookup_aset_self, hb, h]

theorem pushValidator_validators (st : ServiceState) (hk : String) :
    (pushValidator st hk).validators = st.validators := by
  unfold pushValidator
  split <;> rfl

theorem pushValidator_auth_keys (st : ServiceState) (hk : String) :
    (pushValidator st hk).auth_keys = st.auth_keys := by
  unfold pushValidator
  split <;> rfl

theorem pushAuthKey_validators (st : ServiceState) (key : String) :
    (pushAuthKey st key).validators = st.validators := by
  unfold pushAuthKey
  split <;> rfl

theorem pushAuthKey_auth_keys (st : ServiceState) (key : String) :
    (pushAuthKey st key).auth_keys = st.auth_keys := by
  unfold pushAuthKey
  split <;> rfl

theorem applyDb_validators (st : ServiceState) (hk key : String) (db : DbEvent) :
    (applyDb st hk key db).validators = st.validators := by
  cases db with
  | failBeforeIncrement => rfl
  | failAfterIncrement => simp [applyDb, pushValidator_validators]
  | dbOk => simp [applyDb, pushAuthKey_validators, pushValidator_validators]

theorem stepState_validators_keys (st : ServiceState) (hk key today : String)
    (e : AttemptEvent) :
    (stepState st hk key today e).validators.map Prod.fst = st.validators.map Prod.fst := by
  cases e with
  | transportError => simp [stepState, touchToday, map_fst_aset]
  | httpResponse status body db =>
      simp [stepState, applyDb_validators, bumpState, touchToday, map_fst_aset]

theorem keys_eq_isEmpty {α β : Type} {l1 : List (α × β)} {l2 : List (α × β)}
    (h : l1.map Prod.fst = l2.map Prod.fst) : l1.isEmpty = l2.isEmpty := by
  cases l1 <;> cases l2 <;> simp_all

theorem stepState_validators_isEmpty (st : ServiceState) (hk key today : String)
    (e : AttemptEvent) :
    (stepState st hk key today e).validators.isEmpty = st.validators.isEmpty :=
  keys_eq_isEmpty (stepState_validators_keys st hk key today e)

theorem stepState_lookup_self (st : ServiceState) (hk key today : String) (e : AttemptEvent) :
    alookup hk (stepState st hk key today e).validators =
      (alookup hk st.validators).map (fun r => applyAttempt r today e) := by
  cases e with
  | transportError =>
      simp [stepState, touchToday, alookup_aset_self, applyAttempt]
  | httpResponse status body db =>
      simp only [stepState, applyDb_validators, bumpState, touchToday, alookup_aset_self,
        Option.map_map]
      rfl

theorem stepState_lookup_other {hk j : String} (h : hk ≠ j) (st : ServiceState)
    (key today : String) (e : AttemptEvent) :
    alookup j (stepState st hk key today e).validators = alookup j st.validators := by
  cases e with
  | transportError => simp [stepState, touchToday, alookup_aset_ne h]
  | httpResponse status body db =>
      simp [stepState, applyDb_validators, bumpState, touchToday, alookup_aset_ne h]

theorem stepState_auth_keys (st : ServiceState) (hk key today : String) (e : AttemptEvent) :
    (stepState st hk key today e).auth_keys =
      if dbBumps e then aset key bumpAuth st.auth_keys else st.auth_keys := by
  cases e with
  | transportError => simp [stepState, touchToday, dbBumps]
  | httpResponse status body db =>
      cases db with
      | failBeforeIncrement => simp [stepState, applyDb, bumpState, touchToday, dbBumps]
      | failAfterIncrement =>
          simp [stepState, applyDb, pushValidator_auth_keys, bumpState, touchToday, dbBumps]
      | dbOk =>
          simp [stepState, applyDb, pushAuthKey_auth_keys, pushValidator_auth_keys,
            bumpState, touchToday, dbBumps]

theorem stepState_auth_isSome {st : ServiceState} {key : String} (hk today : String)
    (e : AttemptEvent) (h : (alookup key st.auth_keys).isSome = true) :
    (alookup key (stepState st hk key today e).auth_keys).isSome = true := by
  rw [stepState_auth_keys]
  by_cases hd : dbBumps e = true
  · rw [if_pos hd, alookup_aset_self]
    cases h1 : alookup key st.auth_keys with
    | none => rw [h1] at h; simp at h
    | some r => rfl
  · rw [if_neg hd]
    exact h

theorem stepState_reqCount (st : ServiceState) (hk key today : String) (e : AttemptEvent)
    (h : (alookup key st.auth_keys).isSome = true) :
    reqCount (stepState st hk key today e) key =
      reqCount st key + (if dbBumps e then 1 else 0) := by
  obtain ⟨r, hr⟩ := Option.isSome_iff_exists.mp h
  unfold reqCount
  rw [stepState_auth_keys]
  by_cases hd : dbBumps e = true
  · rw [if_pos hd, if_pos hd, alookup_aset_self, hr]
    simp [bumpAuth]
  · rw [if_neg hd, if_neg hd]
    simp

/-! ### Dispatch-loop step equations and helpers -/

theorem dispatchLoop_nil (key today : String) (world : String → AttemptEvent)
    (rng : Nat → Nat) (fuel k : Nat) (st : ServiceState) (log : List String) :
    dispatchLoop key today world rng fuel k [] st log =
      ⟨if st.validators.isEmpty then .noValidators else .allFailed, st, log⟩ := by
  cases fuel <;> rfl

theorem dispatchLoop_zero_fuel (key today : String) (world : String → AttemptEvent)
    (rng : Nat → Nat) (k : Nat) (c0 : String × Nat) (cs : List (String × Nat))
    (st : ServiceState) (log : List String) :
    dispatchLoop key today world rng 0 k (c0 :: cs) st log = ⟨.valueError, st, log⟩ := rfl

theorem dispatchLoop_zero_total (key today : String) (world : String → AttemptEvent)
    (rng : Nat → Nat) (fuel k : Nat) (c0 : String × Nat) (cs : List (String × Nat))
    (st : ServiceState) (log : List String)
    (htot : ((c0 :: cs).map Prod.snd).sum = 0) :
    dispatchLoop key today world rng (fuel + 1) k (c0 :: cs) st log =
      ⟨.valueError, st, log⟩ := by
  simp only [dispatchLoop]
  rw [if_pos htot]

/-- The candidate sampled at a loop iteration (the determinised
`random.choices(validators, weights=stakes, k=1)[0]`). -/
def chosenCand (rng : Nat → Nat) (k : Nat) (c0 : String × Nat)
    (cs : List (String × Nat)) : String × Nat :=
  (c0 :: cs).getD
    (weightedPick ((c0 :: cs).map Prod.snd) (rng k % ((c0 :: cs).map Prod.snd).sum)) c0

theorem dispatchLoop_step (key today : String) (world : String → AttemptEvent)
    (rng : Nat → Nat) (fuel k : Nat) (c0 : String × Nat) (cs : List (String × Nat))
    (st : ServiceState) (log : List String)
    (htot : ((c0 :: cs).map Prod.snd).sum ≠ 0) :
    dispatchLoop key today world rng (fuel + 1) k (c0 :: cs) st log =
      if attemptSucceeds (world (chosenCand rng k c0 cs).1)
      then ⟨.ok (payloadOf (world (chosenCand rng k c0 cs).1)),
            stepState st (chosenCand rng k c0 cs).1 key today (world (chosenCand rng k c0 cs).1),
            log ++ [(chosenCand rng k c0 cs).1]⟩
      else dispatchLoop key today world rng fuel (k + 1) ((c0 :: cs).erase (chosenCand rng k c0 cs))
            (stepState st (chosenCand rng k c0 cs).1 key today (world (chosenCand rng k c0 cs).1))
            (log ++ [(chosenCand rng k c0 cs).1]) := by
  simp only [dispatchLoop]
  rw [if_neg htot]
  rfl

theorem chosenCand_mem (rng : Nat → Nat) (k : Nat) (c0 : String × Nat)
    (cs : List (String × Nat)) (htot : ((c0 :: cs).map Prod.snd).sum ≠ 0) :
    chosenCand rng k c0 cs ∈ c0 :: cs := by
  have hpos : 0 < ((c0 :: cs).map Prod.snd).sum := Nat.pos_of_ne_zero htot
  have hu : rng k % ((c0 :: cs).map Prod.snd).sum < ((c0 :: cs).map Prod.snd).sum :=
    Nat.mod_lt _ hpos
  have hlt : weightedPick ((c0 :: cs).map Prod.snd)
      (rng k % ((c0 :: cs).map Prod.snd).sum) < (c0 :: cs).length := by
    have h := weightedPick_lt hu
    simpa using h
  rw [chosenCand, List.getD_eq_getElem _ _ hlt]
  exact List.getElem_mem hlt

theorem erase_length_le {c : String × Nat} {cands : List (String × Nat)} {fuel : Nat}
    (hc : c ∈ cands) (hlen : cands.length ≤ fuel + 1) :
    (cands.erase c).length ≤ fuel := by
  rw [List.length_erase_of_mem hc]
  omega

theorem erase_keys_subset (c : String × Nat) (cands : List (String × Nat)) :
    ∀ x ∈ (cands.erase c).map Prod.fst, x ∈ cands.map Prod.fst :=
  fun _x hx => (List.Sublist.map Prod.fst (List.erase_sublist c cands)).subset hx

theorem erase_keys_nodup {c : String × Nat} {cands : List (String × Nat)}
    (hnd : (cands.map Prod.fst).Nodup) : ((cands.erase c).map Prod.fst).Nodup :=
  List.Nodup.sublist (List.Sublist.map Prod.fst (List.erase_sublist c cands)) hnd

theorem eq_of_key_eq {α : Type} {l : List (String × α)}
    (hnd : (l.map Prod.fst).Nodup) {a b : String × α} (ha : a ∈ l) (hb : b ∈ l)
    (hk : a.1 = b.1) : a = b := by
  induction l with
  | nil => cases ha
  | cons p rest ih =>
      simp only [List.map_cons, List.nodup_cons] at hnd
      rcases List.mem_cons.mp ha with rfl | ha'
      · rcases List.mem_cons.mp hb with rfl | hb'
        · rfl
        · exact absurd (hk ▸ List.mem_map_of_mem Prod.fst hb') hnd.1
      · rcases List.mem_cons.mp hb with rfl | hb'
        · exact absurd (hk ▸ List.mem_map_of_mem Prod.fst ha') hnd.1
        · exact ih hnd.2 ha' hb'

theorem key_not_mem_erase {c : String × Nat} {cands : List (String × Nat)}
    (hnd : (cands.map Prod.fst).Nodup) (hc : c ∈ cands) :
    c.1 ∉ (cands.erase c).map Prod.fst := by
  intro hmem
  obtain ⟨d, hd, hdk⟩ := List.mem_map.mp hmem
  have hdc : d ∈ cands := List.mem_of_mem_erase hd
  have hde : d = c := eq_of_key_eq hnd hdc hc hdk
  subst hde
  have hpairs : cands.Nodup := List.Nodup.of_map Prod.fst hnd
  exact ((List.Nodup.mem_erase_iff hpairs).mp hd).1 rfl

/-! ### Dispatch-loop invariants -/

theorem dispatchLoop_keys (key today : String) (world : String → AttemptEvent)
    (rng : Nat → Nat) (fuel : Nat) :
    ∀ (k : Nat) (cands : List (String × Nat)) (st : ServiceState) (log : List String),
      (dispatchLoop key today world rng fuel k cands st log).state.validators.map Prod.fst =
        st.validators.map Prod.fst := by
  induction fuel with
  | zero =>
      intro k cands st log
      cases cands with
      | nil => rw [dispatchLoop_nil]
      | cons c0 cs => rw [dispatchLoop_zero_fuel]
  | succ fuel ih =>
      intro k cands st log
      cases cands with
      | nil => rw [dispatchLoop_nil]
      | cons c0 cs =>
          by_cases htot : ((c0 :: cs).map Prod.snd).sum = 0
          · rw [dispatchLoop_zero_total _ _ _ _ _ _ _ _ _ _ htot]
          · rw [dispatchLoop_step _ _ _ _ _ _ _ _ _ _ htot]
            by_cases hsucc : attemptSucceeds (world (chosenCand rng k c0 cs).1) = true
            · rw [if_pos hsucc]
              exact stepState_validators_keys _ _ _ _ _
            · rw [if_neg hsucc, ih]
              exact stepState_validators_keys _ _ _ _ _

theorem dispatchLoop_ne_noValidators (key today : String) (world : String → AttemptEvent)
    (rng : Nat → Nat) (fuel : Nat) :
    ∀ (k : Nat) (cands : List (String × Nat)) (st : ServiceState) (log : List String),
      st.validators.isEmpty = false →
      (dispatchLoop key today world rng fuel k cands st log).result ≠ .noValidators := by
  induction fuel with
  | zero =>
      intro k cands st log hne
      cases cands with
      | nil => rw [dispatchLoop_nil]; simp [hne]
      | cons c0 cs => rw [dispatchLoop_zero_fuel]; simp
  | succ fuel ih =>
      intro k cands st log hne
      cases cands with
      | nil => rw [dispatchLoop_nil]; simp [hne]
      | cons c0 cs =>
          by_cases htot : ((c0 :: cs).map Prod.snd).sum = 0
          · rw [dispatchLoop_zero_total _ _ _ _ _ _ _ _ _ _ htot]; simp
          · rw [dispatchLoop_step _ _ _ _ _ _ _ _ _ _ htot]
            by_cases hsucc : attemptSucceeds (world (chosenCand rng k c0 cs).1) = true
            · rw [if_pos hsucc]; simp
            · rw [if_neg hsucc]
              apply ih
              rw [stepState_validators_isEmpty]
              exact hne

theorem dispatchLoop_allFailed_attempts (key today : String) (world : String → AttemptEvent)
    (rng : Nat → Nat) (fuel : Nat) :
    ∀ (k : Nat) (cands : List (String × Nat)) (st : ServiceState) (log : List String),
      (dispatchLoop key today world rng fuel k cands st log).result = .allFailed →
      ∀ c ∈ cands, attemptSucceeds (world c.1) = false := by
  induction fuel with
  | zero =>
      intro k cands st log hres c hc
      cases cands with
      | nil => cases hc
      | cons c0 cs => rw [dispatchLoop_zero_fuel] at hres; simp at hres
  | succ fuel ih =>
      intro k cands st log hres c hc
      cases cands with
      | nil => cases hc
      | cons c0 cs =>
          by_cases htot : ((c0 :: cs).map Prod.snd).sum = 0
          · rw [dispatchLoop_zero_total _ _ _ _ _ _ _ _ _ _ htot] at hres
            simp at hres
          · rw [dispatchLoop_step _ _ _ _ _ _ _ _ _ _ htot] at hres
            by_cases hsucc : attemptSucceeds (world (chosenCand rng k c0 cs).1) = true
            · rw [if_pos hsucc] at hres; simp at hres
            · rw [if_neg hsucc] at hres
              by_cases hcc : c = chosenCand rng k c0 cs
              · subst hcc; simpa using hsucc
              · exact ih _ _ _ _ hres c ((List.mem_erase_of_ne hcc).mpr hc)

theorem dispatchLoop_exhaust (key today : String) (world : String → AttemptEvent)
    (rng : Nat → Nat) (fuel : Nat) :
    ∀ (k : Nat) (cands : List (String × Nat)) (st : ServiceState) (log : List String),
      cands.length ≤ fuel →
      (∀ c ∈ cands, 0 < c.2) →
      (∀ c ∈ cands, attemptSucceeds (world c.1) = false) →
      st.validators.isEmpty = false →
      (dispatchLoop key today world rng fuel k cands st log).result = .allFailed := by
  induction fuel with
  | zero =>
      intro k cands st log hlen hpos hfail hne
      cases cands with
      | nil => rw [dispatchLoop_nil]; simp [hne]
      | cons c0 cs => simp at hlen
  | succ fuel ih =>
      intro k cands st log hlen hpos hfail hne
      cases cands with
      | nil => rw [dispatchLoop_nil]; simp [hne]
      | cons c0 cs =>
          have htot : ((c0 :: cs).map Prod.snd).sum ≠ 0 := by
            intro h0
            have hall := List.sum_eq_zero_iff.mp h0
            have h1 := hpos c0 (List.mem_cons_self c0 cs)
            have h2 := hall c0.2 (List.mem_map_of_mem Prod.snd (List.mem_cons_self c0 cs))
            omega
          rw [dispatchLoop_step _ _ _ _ _ _ _ _ _ _ htot]
          have hc := chosenCand_mem rng k c0 cs htot
          rw [if_neg (by simp [hfail _ hc])]
          apply ih
          · exact erase_length_le hc hlen
          · intro c hcc
            exact hpos c (List.mem_of_mem_erase hcc)
          · intro c hcc
            exact hfail c (List.mem_of_mem_erase hcc)
          · rw [stepState_validators_isEmpty]
            exact hne

theorem dispatchLoop_contacted_sub (key today : String) (world : String → AttemptEvent)
    (rng : Nat → Nat) (fuel : Nat) :
    ∀ (k : Nat) (cands : List (String × Nat)) (st : ServiceState) (log : List String)
      (hk : String),
      hk ∈ (dispatchLoop key today world rng fuel k cands st log).contacted →
      hk ∈ log ∨ hk ∈ cands.map Prod.fst := by
  induction fuel with
  | zero =>
      intro k cands st log hk hmem
      cases cands with
      | nil => rw [dispatchLoop_nil] at hmem; exact Or.inl hmem
      | cons c0 cs => rw [dispatchLoop_zero_fuel] at hmem; exact Or.inl hmem
  | succ fuel ih =>
      intro k cands st log hk hmem
      cases cands with
      | nil => rw [dispatchLoop_nil] at hmem; exact Or.inl hmem
      | cons c0 cs =>
          by_cases htot : ((c0 :: cs).map Prod.snd).sum = 0
          · rw [dispatchLoop_zero_total _ _ _ _ _ _ _ _ _ _ htot] at hmem
            exact Or.inl hmem
          · rw [dispatchLoop_step _ _ _ _ _ _ _ _ _ _ htot] at hmem
            have hc := chosenCand_mem rng k c0 cs htot
            by_cases hsucc : attemptSucceeds (world (chosenCand rng k c0 cs).1) = true
            · rw [if_pos hsucc] at hmem
              rcases List.mem_append.mp hmem with hlog | hone
              · exact Or.inl hlog
              · rw [List.mem_singleton] at hone
                subst hone
                exact Or.inr (List.mem_map_of_mem Prod.fst hc)
            · rw [if_neg hsucc] at hmem
              rcases ih _ _ _ _ _ hmem with hlog | hcand
              · rcases List.mem_append.mp hlog with hlog' | hone
                · exact Or.inl hlog'
                · rw [List.mem_singleton] at hone
                  subst hone
                  exact Or.inr (List.mem_map_of_mem Prod.fst hc)
              · exact Or.inr (erase_keys_subset _ _ _ hcand)

theorem dispatchLoop_contacted_nodup (key today : String) (world : String → AttemptEvent)
    (rng : Nat → Nat) (fuel : Nat) :
    ∀ (k : Nat) (cands : List (String × Nat)) (st : ServiceState) (log : List String),
      (cands.map Prod.fst).Nodup → log.Nodup →
      (∀ hk ∈ log, hk ∉ cands.map Prod.fst) →
      (dispatchLoop key today world rng fuel k cands st log).contacted.Nodup := by
  induction fuel with
  | zero =>
      intro k cands st log _ hlog _
      cases cands with
      | nil => rw [dispatchLoop_nil]; exact hlog
      | cons c0 cs => rw [dispatchLoop_zero_fuel]; exact hlog
  | succ fuel ih =>
      intro k cands st log hnd hlog hdisj
      cases cands with
      | nil => rw [dispatchLoop_nil]; exact hlog
      | cons c0 cs =>
          by_cases htot : ((c0 :: cs).map Prod.snd).sum = 0
          · rw [dispatchLoop_zero_total _ _ _ _ _ _ _ _ _ _ htot]; exact hlog
          · rw [dispatchLoop_step _ _ _ _ _ _ _ _ _ _ htot]
            have hc := chosenCand_mem rng k c0 cs htot
            have hkey : (chosenCand rng k c0 cs).1 ∈ (c0 :: cs).map Prod.fst :=
              List.mem_map_of_mem Prod.fst hc
            have hlog' : (log ++ [(chosenCand rng k c0 cs).1]).Nodup := by
              rw [List.nodup_append]
              refine ⟨hlog, List.nodup_singleton _, ?_⟩
              intro a ha hb
              rw [List.mem_singleton] at hb
              subst hb
              exact hdisj _ ha hkey
            by_cases hsucc : attemptSucceeds (world (chosenCand rng k c0 cs).1) = true
            · rw [if_pos hsucc]; exact hlog'
            · rw [if_neg hsucc]
              apply ih
              · exact erase_keys_nodup hnd
              · exact hlog'
              · intro hk hhk
                rcases List.mem_append.mp hhk with hin | hone
                · intro hmem
                  exact hdisj hk hin (erase_keys_subset _ _ _ hmem)
                · rw [List.mem_singleton] at hone
                  subst hone
                  exact key_not_mem_erase hnd hc

theorem dispatchLoop_frame (key today : String) (world : String → AttemptEvent)
    (rng : Nat → Nat) (fuel : Nat) :
    ∀ (k : Nat) (cands : List (String × Nat)) (st : ServiceState) (log : List String)
      (hk : String),
      hk ∉ cands.map Prod.fst →
      alookup hk (dispatchLoop key today world rng fuel k cands st log).state.validators =
        alookup hk st.validators := by
  induction fuel with
  | zero =>
      intro k cands st log hk _
      cases cands with
      | nil => rw [dispatchLoop_nil]
      | cons c0 cs => rw [dispatchLoop_zero_fuel]
  | succ fuel ih =>
      intro k cands st log hk hnot
      cases cands with
      | nil => rw [dispatchLoop_nil]
      | cons c0 cs =>
          by_cases htot : ((c0 :: cs).map Prod.snd).sum = 0
          · rw [dispatchLoop_zero_total _ _ _ _ _ _ _ _ _ _ htot]
          · rw [dispatchLoop_step _ _ _ _ _ _ _ _ _ _ htot]
            have hc := chosenCand_mem rng k c0 cs htot
            have hne : (chosenCand rng k c0 cs).1 ≠ hk := by
              intro hh
              exact hnot (hh ▸ List.mem_map_of_mem Prod.fst hc)
            by_cases hsucc : attemptSucceeds (world (chosenCand rng k c0 cs).1) = true
            · rw [if_pos hsucc]
              exact stepState_lookup_other hne _ _ _ _
            · rw [if_neg hsucc]
              rw [ih _ _ _ _ _ (fun hmem => hnot (erase_keys_subset _ _ _ hmem))]
              exact stepState_lookup_other hne _ _ _ _

theorem dispatchLoop_effect (key today : String) (world : String → AttemptEvent)
    (rng : Nat → Nat) (fuel : Nat) :
    ∀ (k : Nat) (cands : List (String × Nat)) (st : ServiceState) (log : List String)
      (hk : String),
      (cands.map Prod.fst).Nodup →
      hk ∈ (dispatchLoop key today world rng fuel k cands st log).contacted →
      hk ∉ log →
      alookup hk (dispatchLoop key today world rng fuel k cands st log).state.validators =
        (alookup hk st.validators).map (fun r => applyAttempt r today (world hk)) := by
  induction fuel with
  | zero =>
      intro k cands st log hk _ hmem hnot
      cases cands with
      | nil => rw [dispatchLoop_nil] at hmem; exact absurd hmem hnot
      | cons c0 cs => rw [dispatchLoop_zero_fuel] at hmem; exact absurd hmem hnot
  | succ fuel ih =>
      intro k cands st log hk hnd hmem hnot
      cases cands with
      | nil => rw [dispatchLoop_nil] at hmem; exact absurd hmem hnot
      | cons c0 cs =>
          by_cases htot : ((c0 :: cs).map Prod.snd).sum = 0
          · rw [dispatchLoop_zero_total _ _ _ _ _ _ _ _ _ _ htot] at hmem
            exact absurd hmem hnot
          · rw [dispatchLoop_step _ _ _ _ _ _ _ _ _ _ htot] at hmem ⊢
            have hc := chosenCand_mem rng k c0 cs htot
            by_cases hsucc : attemptSucceeds (world (chosenCand rng k c0 cs).1) = true
            · rw [if_pos hsucc] at hmem ⊢
              rcases List.mem_append.mp hmem with hlog | hone
              · exact absurd hlog hnot
              · rw [List.mem_singleton] at hone
                subst hone
                exact stepState_lookup_self _ _ _ _ _
            · rw [if_neg hsucc] at hmem ⊢
              by_cases hcc : (chosenCand rng k c0 cs).1 = hk
              · subst hcc
                rw [dispatchLoop_frame _ _ _ _ _ _ _ _ _ _ (key_not_mem_erase hnd hc)]
                exact stepState_lookup_self _ _ _ _ _
              · rw [ih _ _ _ _ _ (erase_keys_nodup hnd) hmem ?later]
                · rw [stepState_lookup_other hcc]
                case later =>
                  intro hin
                  rcases List.mem_append.mp hin with hlog | hone
                  · exact hnot hlog
                  · rw [List.mem_singleton] at hone
                    exact hcc hone.symm

theorem dispatchLoop_reqCount (key today : String) (world : String → AttemptEvent)
    (rng : Nat → Nat) (fuel : Nat) :
    ∀ (k : Nat) (cands : List (String × Nat)) (st : ServiceState) (log : List String),
      (alookup key st.auth_keys).isSome = true →
      ∃ delta,
        (dispatchLoop key today world rng fuel k cands st log).contacted = log ++ delta ∧
        reqCount (dispatchLoop key today world rng fuel k cands st log).state key =
          reqCount st key + delta.countP (fun hk => dbBumps (world hk)) := by
  induction fuel with
  | zero =>
      intro k cands st log _
      cases cands with
      | nil => exact ⟨[], by rw [dispatchLoop_nil]; simp, by rw [dispatchLoop_nil]; simp⟩
      | cons c0 cs =>
          exact ⟨[], by rw [dispatchLoop_zero_fuel]; simp, by rw [dispatchLoop_zero_fuel]; simp⟩
  | succ fuel ih =>
      intro k cands st log hsome
      cases cands with
      | nil => exact ⟨[], by rw [dispatchLoop_nil]; simp, by rw [dispatchLoop_nil]; simp⟩
      | cons c0 cs =>
          by_cases htot : ((c0 :: cs).map Prod.snd).sum = 0
          · exact ⟨[], by rw [dispatchLoop_zero_total _ _ _ _ _ _ _ _ _ _ htot]; simp,
              by rw [dispatchLoop_zero_total _ _ _ _ _ _ _ _ _ _ htot]; simp⟩
          · by_cases hsucc : attemptSucceeds (world (chosenCand rng k c0 cs).1) = true
            · refine ⟨[(chosenCand rng k c0 cs).1], ?_, ?_⟩
              · rw [dispatchLoop_step _ _ _ _ _ _ _ _ _ _ htot, if_pos hsucc]
              · rw [dispatchLoop_step _ _ _ _ _ _ _ _ _ _ htot, if_pos hsucc]
                have hstep := stepState_reqCount st (chosenCand rng k c0 cs).1 key today
                  (world (chosenCand rng k c0 cs).1) hsome
                rw [List.countP_cons]
                simp only [List.countP_nil]
                omega
            · obtain ⟨delta, h1, h2⟩ := ih (k + 1) ((c0 :: cs).erase (chosenCand rng k c0 cs))
                (stepState st (chosenCand rng k c0 cs).1 key today
                  (world (chosenCand rng k c0 cs).1))
                (log ++ [(chosenCand rng k c0 cs).1])
                (stepState_auth_isSome _ _ _ hsome)
              refine ⟨(chosenCand rng k c0 cs).1 :: delta, ?_, ?_⟩
              · rw [dispatchLoop_step _ _ _ _ _ _ _ _ _ _ htot, if_neg hsucc, h1]
                simp
              · rw [dispatchLoop_step _ _ _ _ _ _ _ _ _ _ htot, if_neg hsucc, h2]
                have hstep := stepState_reqCount st (chosenCand rng k c0 cs).1 key today
                  (world (chosenCand rng k c0 cs).1) hsome
                rw [List.countP_cons]
                omega

theorem dispatchLoop_success_result (key today : String) (world : String → AttemptEvent)
    (rng : Nat → Nat) (fuel : Nat) :
    ∀ (k : Nat) (cands : List (String × Nat)) (st : ServiceState) (log : List String)
      (hk : String),
      hk ∈ (dispatchLoop key today world rng fuel k cands st log).contacted →
      hk ∉ log →
      attemptSucceeds (world hk) = true →
      (dispatchLoop key today world rng fuel k cands st log).result =
        .ok (payloadOf (world hk)) := by
  induction fuel with
  | zero =>
      intro k cands st log hk hmem hnot _
      cases cands with
      | nil => rw [dispatchLoop_nil] at hmem; exact absurd hmem hnot
      | cons c0 cs => rw [dispatchLoop_zero_fuel] at hmem; exact absurd hmem hnot
  | succ fuel ih =>
      intro k cands st log hk hmem hnot hwin
      cases cands with
      | nil => rw [dispatchLoop_nil] at hmem; exact absurd hmem hnot
      | cons c0 cs =>
          by_cases htot : ((c0 :: cs).map Prod.snd).sum = 0
          · rw [dispatchLoop_zero_total _ _ _ _ _ _ _ _ _ _ htot] at hmem
            exact absurd hmem hnot
          · rw [dispatchLoop_step _ _ _ _ _ _ _ _ _ _ htot] at hmem ⊢
            by_cases hsucc : attemptSucceeds (world (chosenCand rng k c0 cs).1) = true
            · rw [if_pos hsucc] at hmem ⊢
              rcases List.mem_append.mp hmem with hlog | hone
              · exact absurd hlog hnot
              · rw [List.mem_singleton] at hone
                subst hone
                rfl
            · rw [if_neg hsucc] at hmem ⊢
              have hcc : (chosenCand rng k c0 cs).1 ≠ hk := by
                intro hh
                rw [hh] at hsucc
                exact hsucc hwin
              refine ih _ _ _ _ _ hmem ?_ hwin
              intro hin
              rcases List.mem_append.mp hin with hlog | hone
              · exact hnot hlog
              · rw [List.mem_singleton] at hone
                exact hcc hone.symm

/-! ### Sync and candidate-pool lemmas -/

theorem mergeNew_lookup_left {hk : String} {r : ValidatorRec}
    (store : List (String × ValidatorRec)) :
    ∀ mem, alookup hk mem = some r → alookup hk (mergeNew mem store) = some r := by
  induction store with
  | nil => intro mem h; exact h
  | cons p rest ih =>
      intro mem h
      rw [mergeNew, List.foldl_cons]
      by_cases hp : (alookup p.1 mem).isSome = true
      · rw [if_pos hp]
        exact ih mem h
      · rw [if_neg hp]
        exact ih (mem ++ [p]) (alookup_append_left h [p])

theorem sync_db_astore (st : ServiceState) : (sync_db st).astore = st.astore := rfl

theorem sync_db_auth_keys (st : ServiceState) : (sync_db st).auth_keys = st.astore := rfl

theorem eligibleHotkeys_subset (st : ServiceState) (mg : Metagraph) :
    ∀ hk ∈ eligibleHotkeys st mg, hk ∈ st.validators.map Prod.fst := by
  intro hk hmem
  unfold eligibleHotkeys at hmem
  have h1 := List.mem_of_mem_filter hmem
  obtain ⟨p, hp, hpk⟩ := List.mem_map.mp h1
  exact hpk ▸ List.mem_map_of_mem Prod.fst (List.mem_of_mem_filter hp)

theorem eligibleHotkeys_nodup {st : ServiceState} (mg : Metagraph)
    (h : (st.validators.map Prod.fst).Nodup) : (eligibleHotkeys st mg).Nodup := by
  unfold eligibleHotkeys
  exact List.Nodup.sublist (List.filter_sublist _)
    (List.Nodup.sublist (List.Sublist.map Prod.fst (List.filter_sublist _)) h)

theorem eligibleCands_keys (st : ServiceState) (mg : Metagraph) :
    (eligibleCands st mg).map Prod.fst = eligibleHotkeys st mg := by
  unfold eligibleCands
  rw [List.map_map]
  exact List.map_id _

theorem eligibleHotkeys_nil_of_validators_nil {st : ServiceState} (mg : Metagraph)
    (h : st.validators = []) : eligibleHotkeys st mg = [] := by
  unfold eligibleHotkeys
  rw [h]
  rfl

theorem isEmpty_false_of_ne_nil {α : Type} {l : List α} (h : l ≠ []) : l.isEmpty = false := by
  cases l with
  | nil => exact absurd rfl h
  | cons a as => rfl

theorem generate_eq_authError (st : ServiceState) (mg : Metagraph) (key today : String)
    (world : String → AttemptEvent) (rng : Nat → Nat)
    (h : alookup key st.astore = none) :
    generate st mg key today world rng = ⟨.authError, sync_db st, []⟩ := by
  unfold generate
  rw [if_pos ?_]
  rw [sync_db_astore, h]
  rfl

theorem generate_eq_loop (st : ServiceState) (mg : Metagraph) (key today : String)
    (world : String → AttemptEvent) (rng : Nat → Nat)
    (hauth : (alookup key st.astore).isSome = true) :
    generate st mg key today world rng =
      dispatchLoop key today world rng (eligibleCands (sync_db st) mg).length 0
        (eligibleCands (sync_db st) mg) (sync_db st) [] := by
  obtain ⟨r, hr⟩ := Option.isSome_iff_exists.mp hauth
  unfold generate
  rw [if_neg ?_]
  rw [sync_db_astore, hr]
  simp

theorem mem_eligibleHotkeys_of_mem_cands {st : ServiceState} {mg : Metagraph}
    {c : String × Nat} (h : c ∈ eligibleCands st mg) : c.1 ∈ eligibleHotkeys st mg := by
  rw [← eligibleCands_keys]
  exact List.mem_map_of_mem Prod.fst h

/-! ### Claim C1 -/

/-- Claim C1 (amended): when a `generate` call produces no successful
result, it fails with `NoValidatorsAvailable` (404) iff the whole
in-memory registry after the store sync is empty — not iff the eligible
candidate set is empty.  It fails with `AllValidatorsFailed` (500) iff
the registry is non-empty and every eligible candidate's attempt failed
(vacuously so when the candidate set is empty but the registry is not);
the positive-stake hypothesis rules out the `ValueError` exit of
`random.choices`. -/
theorem c1_generate_failure_classification (st : ServiceState) (mg : Metagraph)
    (key today : String) (world : String → AttemptEvent) (rng : Nat → Nat)
    (hauth : (alookup key st.astore).isSome = true)
    (hpos : ∀ c ∈ eligibleCands (sync_db st) mg, 0 < c.2) :
    ((generate st mg key today world rng).result = .noValidators ↔
      (sync_db st).validators = [])
  ∧ ((generate st mg key today world rng).result = .allFailed ↔
      ((sync_db st).validators ≠ [] ∧
        ∀ hk ∈ eligibleHotkeys (sync_db st) mg, attemptSucceeds (world hk) = false)) := by
  rw [generate_eq_loop st mg key today world rng hauth]
  refine ⟨⟨?_, ?_⟩, ⟨?_, ?_⟩⟩
  · intro hres
    by_contra hne
    exact dispatchLoop_ne_noValidators key today world rng _ _ _ _ _
      (isEmpty_false_of_ne_nil hne) hres
  · intro hnil
    have hcand : eligibleCands (sync_db st) mg = [] := by
      unfold eligibleCands
      rw [eligibleHotkeys_nil_of_validators_nil mg hnil]
      rfl
    rw [hcand, dispatchLoop_nil]
    simp [hnil]
  · intro hres
    constructor
    · intro hnil
      have hcand : eligibleCands (sync_db st) mg = [] := by
        unfold eligibleCands
        rw [eligibleHotkeys_nil_of_validators_nil mg hnil]
        rfl
      rw [hcand, dispatchLoop_nil] at hres
      simp [hnil] at hres
    · intro hk hmem
      exact dispatchLoop_allFailed_attempts key today world rng _ _ _ _ _ hres
        (hk, stakeOf mg hk)
        (List.mem_map_of_mem (fun hk => (hk, stakeOf mg hk)) hmem)
  · intro hcond
    apply dispatchLoop_exhaust
    · exact le_refl _
    · exact hpos
    · intro c hc
      exact hcond.2 c.1 (mem_eligibleHotkeys_of_mem_cands hc)
    · exact isEmpty_false_of_ne_nil hcond.1

/-- Claim C1 counterexample: a registry holding a single inactive
validator (a ledger member) gives an empty eligible candidate set, yet
`generate` fails with `AllValidatorsFailed` (500), not
`NoValidatorsAvailable` (404) — app.py 268-271 tests
`len(self.available_validators)`, not the candidate pool. -/
theorem c1_counterexample :
    eligibleCands (sync_db ⟨[("v1", ⟨"e", false, []⟩)], [], [], [("k", ⟨none⟩)]⟩)
        ⟨["v1"], [10]⟩ = []
  ∧ (generate ⟨[("v1", ⟨"e", false, []⟩)], [], [], [("k", ⟨none⟩)]⟩ ⟨["v1"], [10]⟩ "k" "d"
        (fun _ => AttemptEvent.transportError) (fun _ => 0)).result =
      DispatchResult.allFailed := by
  decide

/-- Concrete instance of the C1 classification: one active staked member
whose attempt dies in transport, so the call ends in
`AllValidatorsFailed`. -/
theorem c1_witness :
    (generate ⟨[("v1", ⟨"e", true, []⟩)], [], [], [("k", ⟨none⟩)]⟩ ⟨["v1"], [10]⟩ "k" "d"
        (fun _ => AttemptEvent.transportError) (fun _ => 0)).result =
      DispatchResult.allFailed :=
  (c1_generate_failure_classification
      ⟨[("v1", ⟨"e", true, []⟩)], [], [], [("k", ⟨none⟩)]⟩ ⟨["v1"], [10]⟩ "k" "d"
      (fun _ => AttemptEvent.transportError) (fun _ => 0)
      (by decide) (by decide)).2.mpr (by decide)

/-! ### Claim C9 -/

/-- Claim C9 (confirmed): when the auth key is absent from the
`auth_keys` collection, `generate` fails with `AuthenticationError`
(401) before contacting any validator: the contacted list is empty, both
stores are untouched, the auth-key cache is only refreshed from the
store, and every pre-existing in-memory validator record is unchanged
(the preceding `sync_db` only adds store records that were missing from
memory). -/
theorem c9_auth_failure (st : ServiceState) (mg : Metagraph) (key today : String)
    (world : String → AttemptEvent) (rng : Nat → Nat)
    (h : alookup key st.astore = none) :
    (generate st mg key today world rng).result = .authError
  ∧ (generate st mg key today world rng).contacted = []
  ∧ (generate st mg key today world rng).state.astore = st.astore
  ∧ (generate st mg key today world rng).state.vstore = st.vstore
  ∧ (generate st mg key today world rng).state.auth_keys = st.astore
  ∧ ∀ hk r, alookup hk st.validators = some r →
      alookup hk (generate st mg key today world rng).state.validators = some r := by
  rw [generate_eq_authError st mg key today world rng h]
  exact ⟨rfl, rfl, rfl, rfl, rfl,
    fun hk r hr => mergeNew_lookup_left st.vstore st.validators hr⟩

/-- Concrete instance of C9: unknown key, one active validator, no
contact happens. -/
theorem c9_witness :
    (generate ⟨[("v1", ⟨"e", true, []⟩)], [], [], []⟩ ⟨["v1"], [10]⟩ "k" "d"
        (fun _ => AttemptEvent.transportError) (fun _ => 0)).result =
      DispatchResult.authError
  ∧ (generate ⟨[("v1", ⟨"e", true, []⟩)], [], [], []⟩ ⟨["v1"], [10]⟩ "k" "d"
        (fun _ => AttemptEvent.transportError) (fun _ => 0)).contacted = [] := by
  have h := c9_auth_failure ⟨[("v1", ⟨"e", true, []⟩)], [], [], []⟩ ⟨["v1"], [10]⟩ "k" "d"
    (fun _ => AttemptEvent.transportError) (fun _ => 0) (by decide)
  exact ⟨h.1, h.2.1⟩

/-! ### Claims C2, C3, C4, C10 -/

theorem generate_contacted_isSome (st : ServiceState) (mg : Metagraph) (key today : String)
    (world : String → AttemptEvent) (rng : Nat → Nat)
    (hauth : (alookup key st.astore).isSome = true) :
    ∀ hk ∈ (generate st mg key today world rng).contacted,
      (alookup hk (sync_db st).validators).isSome = true := by
  intro hk hmem
  rw [generate_eq_loop st mg key today world rng hauth] at hmem
  rcases dispatchLoop_contacted_sub key today world rng _ _ _ _ _ _ hmem with h | h
  · cases h
  · rw [eligibleCands_keys] at h
    rw [alookup_isSome_iff]
    exact eligibleHotkeys_subset _ _ _ h

theorem generate_record_effect (st : ServiceState) (mg : Metagraph) (key today : String)
    (world : String → AttemptEvent) (rng : Nat → Nat)
    (hauth : (alookup key st.astore).isSome = true)
    (hnd : ((sync_db st).validators.map Prod.fst).Nodup) :
    ∀ hk ∈ (generate st mg key today world rng).contacted,
      alookup hk (generate st mg key today world rng).state.validators =
        (alookup hk (sync_db st).validators).map
          (fun r => applyAttempt r today (world hk)) := by
  intro hk hmem
  rw [generate_eq_loop st mg key today world rng hauth] at hmem ⊢
  apply dispatchLoop_effect
  · rw [eligibleCands_keys]
    exact eligibleHotkeys_nodup mg hnd
  · exact hmem
  · intro h
    cases h

/-- Claim C2 (amended): a dispatch attempt that got an HTTP response and
was not a success (success being status exactly 200 with a truthy parsed
body) increments the validator's failure counter for today by one and
the loop moves on; an attempt that died in transport (any exception from
`client.post`) is skipped over by `continue` before the counter code, so
it leaves both counters unchanged. -/
theorem c2_attempt_failure_recording (st : ServiceState) (mg : Metagraph)
    (key today : String) (world : String → AttemptEvent) (rng : Nat → Nat)
    (hauth : (alookup key st.astore).isSome = true)
    (hnd : ((sync_db st).validators.map Prod.fst).Nodup) :
    ∀ hk ∈ (generate st mg key today world rng).contacted,
      ((∀ status body db, world hk = .httpResponse status body db →
          attemptSucceeds (world hk) = false →
          todayFail (generate st mg key today world rng).state hk today =
            todayFail (sync_db st) hk today + 1)
      ∧ (world hk = .transportError →
          todayFail (generate st mg key today world rng).state hk today =
            todayFail (sync_db st) hk today
        ∧ todaySucc (generate st mg key today world rng).state hk today =
            todaySucc (sync_db st) hk today)) := by
  intro hk hmem
  obtain ⟨r, hr⟩ := Option.isSome_iff_exists.mp
    (generate_contacted_isSome st mg key today world rng hauth hk hmem)
  have heff := generate_record_effect st mg key today world rng hauth hnd hk hmem
  rw [hr] at heff
  constructor
  · intro status body db hw hfail
    rw [hw] at heff hfail
    simp only [attemptSucceeds] at hfail
    simp [todayFail, heff, hr, getToday_applyAttempt_response, hfail]
  · intro hw
    rw [hw] at heff
    simp [todayFail, todaySucc, heff, hr, getToday_applyAttempt_transport]

/-- Claim C2 counterexample: a single active staked candidate whose
attempt raises a transport error; the attempt happened (it is in the
contacted list) but its failure counter for today remains 0, because the
`except` clause `continue`s before the counter update. -/
theorem c2_counterexample :
    (generate ⟨[("v1", ⟨"e", true, []⟩)], [], [], [("k", ⟨none⟩)]⟩ ⟨["v1"], [10]⟩ "k" "d"
        (fun _ => AttemptEvent.transportError) (fun _ => 0)).contacted = ["v1"]
  ∧ todayFail (generate ⟨[("v1", ⟨"e", true, []⟩)], [], [], [("k", ⟨none⟩)]⟩ ⟨["v1"], [10]⟩
        "k" "d" (fun _ => AttemptEvent.transportError) (fun _ => 0)).state "v1" "d" = 0 := by
  decide

/-- Concrete instance of the amended C2: a 500 response increments the
failure counter by one. -/
theorem c2_witness :
    todayFail (generate ⟨[("v1", ⟨"e", true, []⟩)], [], [], [("k", ⟨none⟩)]⟩ ⟨["v1"], [10]⟩
        "k" "d" (fun _ => AttemptEvent.httpResponse 500 (.parsed (.json true 1)) .dbOk)
        (fun _ => 0)).state "v1" "d" =
      todayFail (sync_db ⟨[("v1", ⟨"e", true, []⟩)], [], [], [("k", ⟨none⟩)]⟩) "v1" "d" + 1 := by
  have h := c2_attempt_failure_recording
    ⟨[("v1", ⟨"e", true, []⟩)], [], [], [("k", ⟨none⟩)]⟩ ⟨["v1"], [10]⟩ "k" "d"
    (fun _ => AttemptEvent.httpResponse 500 (.parsed (.json true 1)) .dbOk) (fun _ => 0)
    (by decide) (by decide) "v1" (by decide)
  exact h.1 500 (.parsed (.json true 1)) .dbOk rfl (by decide)

/-- Claim C3 (amended): the caller's in-memory `request_count` grows by
one for every attempt that received an HTTP response and whose
persistence block reached the increment (the block is skipped on
transport errors by `continue`, and cut short when
`validators_collection.update_one` raises) — success of the attempt is
irrelevant, failed attempts are billed too. -/
theorem c3_request_count_accounting (st : ServiceState) (mg : Metagraph)
    (key today : String) (world : String → AttemptEvent) (rng : Nat → Nat)
    (hauth : (alookup key st.astore).isSome = true) :
    reqCount (generate st mg key today world rng).state key =
      reqCount (sync_db st) key +
        (generate st mg key today world rng).contacted.countP
          (fun hk => dbBumps (world hk)) := by
  rw [generate_eq_loop st mg key today world rng hauth]
  obtain ⟨delta, h1, h2⟩ := dispatchLoop_reqCount key today world rng
    (eligibleCands (sync_db st) mg).length 0 (eligibleCands (sync_db st) mg)
    (sync_db st) [] (by rw [sync_db_auth_keys]; exact hauth)
  rw [h1, h2]
  simp

/-- Claim C3 counterexample: a single candidate answers 500 (a failed
attempt, no success anywhere), yet the caller's `request_count` went
from 0 to 1. -/
theorem c3_counterexample :
    (generate ⟨[("v1", ⟨"e", true, []⟩)], [], [], [("k", ⟨none⟩)]⟩ ⟨["v1"], [10]⟩ "k" "d"
        (fun _ => AttemptEvent.httpResponse 500 (.parsed (.json true 1)) .dbOk)
        (fun _ => 0)).result = DispatchResult.allFailed
  ∧ reqCount (generate ⟨[("v1", ⟨"e", true, []⟩)], [], [], [("k", ⟨none⟩)]⟩ ⟨["v1"], [10]⟩
        "k" "d" (fun _ => AttemptEvent.httpResponse 500 (.parsed (.json true 1)) .dbOk)
        (fun _ => 0)).state "k" = 1 := by
  decide

/-- Concrete instance of the amended C3 accounting identity. -/
theorem c3_witness :
    reqCount (generate ⟨[("v1", ⟨"e", true, []⟩)], [], [], [("k", ⟨none⟩)]⟩ ⟨["v1"], [10]⟩
        "k" "d" (fun _ => AttemptEvent.httpResponse 500 (.parsed (.json true 1)) .dbOk)
        (fun _ => 0)).state "k" =
      reqCount (sync_db ⟨[("v1", ⟨"e", true, []⟩)], [], [], [("k", ⟨none⟩)]⟩) "k" +
        (generate ⟨[("v1", ⟨"e", true, []⟩)], [], [], [("k", ⟨none⟩)]⟩ ⟨["v1"], [10]⟩
            "k" "d" (fun _ => AttemptEvent.httpResponse 500 (.parsed (.json true 1)) .dbOk)
            (fun _ => 0)).contacted.countP
          (fun hk => dbBumps ((fun _ => AttemptEvent.httpResponse 500
            (.parsed (.json true 1)) .dbOk) hk)) :=
  c3_request_count_accounting ⟨[("v1", ⟨"e", true, []⟩)], [], [], [("k", ⟨none⟩)]⟩
    ⟨["v1"], [10]⟩ "k" "d"
    (fun _ => AttemptEvent.httpResponse 500 (.parsed (.json true 1)) .dbOk) (fun _ => 0)
    (by decide)

/-- Claim C4 (confirmed): within one `generate` call no validator is
contacted twice (the contacted list has no duplicates, each sampled
candidate being removed from the pool by `validators.remove`), and the
sampling itself is exactly stake-proportional: over the `ws.sum`
equally likely draws of `random.choices`, candidate `i` of the remaining
pool is selected exactly `ws.get i` times. -/
theorem c4_dispatch_without_replacement (st : ServiceState) (mg : Metagraph)
    (key today : String) (world : String → AttemptEvent) (rng : Nat → Nat)
    (hnd : ((sync_db st).validators.map Prod.fst).Nodup) :
    (generate st mg key today world rng).contacted.Nodup
  ∧ ∀ (ws : List Nat) (i : Fin ws.length),
      (List.range ws.sum).countP (fun u => weightedPick ws u == i.1) = ws.get i := by
  refine ⟨?_, fun ws i => weightedPick_range_countP ws i⟩
  by_cases hauth : (alookup key st.astore).isSome = true
  · rw [generate_eq_loop st mg key today world rng hauth]
    apply dispatchLoop_contacted_nodup
    · rw [eligibleCands_keys]
      exact eligibleHotkeys_nodup mg hnd
    · exact List.nodup_nil
    · intro hk h
      cases h
  · have hnone : alookup key st.astore = none := by
      cases h : alookup key st.astore with
      | none => rfl
      | some r => rw [h] at hauth; simp at hauth
    rw [generate_eq_authError st mg key today world rng hnone]
    exact List.nodup_nil

/-- Concrete instance of C4: two active staked members, both failing, so
both get contacted — each exactly once. -/
theorem c4_witness :
    (generate ⟨[("v1", ⟨"e", true, []⟩), ("v2", ⟨"f", true, []⟩)], [], [],
        [("k", ⟨none⟩)]⟩ ⟨["v1", "v2"], [5, 7]⟩ "k" "d"
        (fun _ => AttemptEvent.transportError) (fun _ => 0)).contacted.Nodup :=
  (c4_dispatch_without_replacement
    ⟨[("v1", ⟨"e", true, []⟩), ("v2", ⟨"f", true, []⟩)], [], [], [("k", ⟨none⟩)]⟩
    ⟨["v1", "v2"], [5, 7]⟩ "k" "d" (fun _ => AttemptEvent.transportError) (fun _ => 0)
    (by decide)).1

/-- Claim C10 (confirmed): a 200 response whose body fails JSON parsing
is treated as a success — `response` is rebound to the dict
`{"error": str(e)}` which is truthy, so `output` is set, the success
counter for today is incremented, and that error object is returned to
the caller as the result payload. -/
theorem c10_parse_error_success (st : ServiceState) (mg : Metagraph) (key today : String)
    (world : String → AttemptEvent) (rng : Nat → Nat)
    (hauth : (alookup key st.astore).isSome = true)
    (hnd : ((sync_db st).validators.map Prod.fst).Nodup) :
    ∀ hk ∈ (generate st mg key today world rng).contacted,
      ∀ msg db, world hk = .httpResponse 200 (.parseFail msg) db →
        (generate st mg key today world rng).result = DispatchResult.ok (.errObj msg)
      ∧ todaySucc (generate st mg key today world rng).state hk today =
          todaySucc (sync_db st) hk today + 1 := by
  intro hk hmem msg db hw
  have hwin : attemptSucceeds (world hk) = true := by
    rw [hw]
    rfl
  obtain ⟨r, hr⟩ := Option.isSome_iff_exists.mp
    (generate_contacted_isSome st mg key today world rng hauth hk hmem)
  have heff := generate_record_effect st mg key today world rng hauth hnd hk hmem
  rw [hr] at heff
  constructor
  · have hres := by
      rw [generate_eq_loop st mg key today world rng hauth] at hmem
      exact dispatchLoop_success_result key today world rng _ _ _ _ _ _ hmem
        (fun h => by cases h) hwin
    rw [generate_eq_loop st mg key today world rng hauth, hres, hw]
    rfl
  · rw [hw] at heff
    simp [todaySucc, heff, hr, getToday_applyAttempt_response, parsedPayload,
      Payload.truthy]

/-- Concrete instance of C10: status 200 with an unparsable body returns
the error object and bumps the success counter. -/
theorem c10_witness :
    (generate ⟨[("v1", ⟨"e", true, []⟩)], [], [], [("k", ⟨none⟩)]⟩ ⟨["v1"], [10]⟩ "k" "d"
        (fun _ => AttemptEvent.httpResponse 200 (.parseFail "boom") .dbOk)
        (fun _ => 0)).result = DispatchResult.ok (.errObj "boom")
  ∧ todaySucc (generate ⟨[("v1", ⟨"e", true, []⟩)], [], [], [("k", ⟨none⟩)]⟩ ⟨["v1"], [10]⟩
        "k" "d" (fun _ => AttemptEvent.httpResponse 200 (.parseFail "boom") .dbOk)
        (fun _ => 0)).state "v1" "d" =
      todaySucc (sync_db ⟨[("v1", ⟨"e", true, []⟩)], [], [], [("k", ⟨none⟩)]⟩) "v1" "d" + 1 :=
  c10_parse_error_success ⟨[("v1", ⟨"e", true, []⟩)], [], [], [("k", ⟨none⟩)]⟩
    ⟨["v1"], [10]⟩ "k" "d" (fun _ => AttemptEvent.httpResponse 200 (.parseFail "boom") .dbOk)
    (fun _ => 0) (by decide) (by decide) "v1" (by decide) "boom" .dbOk rfl

/-! ### Claim C5 -/

/-- Claim C5 (amended): `get_credentials` resolves the hotkey from `uid`
first (app.py line 169), so an out-of-range `uid` (per Python indexing:
`uid >= n` or `uid < -n` for membership size `n`) raises an unhandled
`IndexError` — surfacing as a 500, not a 404 — for every postfix,
including the empty one, and the service state is unchanged; only when
`uid` is in range does an empty postfix fail with `Invalid postfix`
(404), again with the state unchanged.  Both failures happen before any
registry record is created or modified. -/
theorem c5_registration_error_order (st : ServiceState) (mg : Metagraph)
    (msg sig clientIp : String) (uid : Int) (pfx : String) :
    (pyGet mg.hotkeys uid = none →
      get_credentials st mg msg sig clientIp uid pfx = ⟨some .indexError, st, none⟩)
  ∧ (∀ hk, pyGet mg.hotkeys uid = some hk → pfx = "" →
      get_credentials st mg msg sig clientIp uid pfx = ⟨some .invalidPostfix, st, none⟩) := by
  constructor
  · intro h
    simp [get_credentials, h]
  · intro hk h hp
    simp [get_credentials, h, hp]

/-- Claim C5 counterexample: membership of size 1 and `uid = 1` with an
empty postfix: the call fails with the unhandled `IndexError` from
`self.metagraph.hotkeys[uid]`, not with the 404 `Invalid postfix` the
claim promises for every `uid`, and not with any 404 at all. -/
theorem c5_counterexample :
    (get_credentials ⟨[], [], [], []⟩ ⟨["h0"], [7]⟩ "m" "s" "ip" 1 "").error =
      some RegError.indexError
  ∧ some RegError.indexError ≠ some RegError.invalidPostfix := by
  decide

/-- Concrete instance of the amended C5: in-range uid with empty postfix
gives `Invalid postfix` and leaves the state untouched. -/
theorem c5_witness :
    get_credentials ⟨[], [], [], []⟩ ⟨["h0"], [7]⟩ "m" "s" "ip" 0 "" =
      ⟨some RegError.invalidPostfix, ⟨[], [], [], []⟩, none⟩ :=
  (c5_registration_error_order ⟨[], [], [], []⟩ ⟨["h0"], [7]⟩ "m" "s" "ip" 0 "").2
    "h0" (by decide) rfl

/-! ### Claim C7 -/

/-- Claim C7 (amended): one iteration of the
`sync_metagraph_periodically` background loop only replaces the
metagraph snapshot with the freshly synced one; it never touches the
validator registry or the store — in particular it does not invoke
`filter_validators` (reconciliation), which the service runs only once
at startup. -/
theorem c7_sync_iteration_no_reconcile (st : FullState) (freshMg : Metagraph) :
    (sync_metagraph_iteration st freshMg).service = st.service ∧
    (sync_metagraph_iteration st freshMg).metagraph = freshMg :=
  ⟨rfl, rfl⟩

/-- Claim C7 counterexample: a registry holding an active validator
`"a"` that the fresh membership no longer contains survives a loop
iteration untouched (still present, still active), whereas invoking
`filter_validators` — what the claim says each iteration does — would
have removed it from memory and store. -/
theorem c7_counterexample :
    (sync_metagraph_iteration
        ⟨⟨["a"], [5]⟩, ⟨[("a", ⟨"e", true, []⟩)], [("a", ⟨"e", true, []⟩)], [], []⟩⟩
        ⟨["b"], [5]⟩).service.validators = [("a", ⟨"e", true, []⟩)]
  ∧ ¬ ("a" ∈ (⟨["b"], [5]⟩ : Metagraph).hotkeys)
  ∧ (filter_validators [("a", ⟨"e", true, []⟩)] [("a", ⟨"e", true, []⟩)]
      (⟨["b"], [5]⟩ : Metagraph).hotkeys) = ([], []) := by
  decide

/-! ### Claim C8 -/

theorem applyRegistration_keys_nodup (mg : Metagraph) (msg sig : String)
    (st : ServiceState) (c : RegCall)
    (hnd : (st.validators.map Prod.fst).Nodup) :
    ((applyRegistration mg msg sig st c).validators.map Prod.fst).Nodup := by
  unfold applyRegistration
  cases hpy : pyGet mg.hotkeys c.uid with
  | none =>
      simp [get_credentials, hpy]
      exact hnd
  | some hk =>
      by_cases hp : c.pfx = ""
      · simp [get_credentials, hpy, hp]
        exact hnd
      · cases hmem : alookup hk st.validators with
        | some r =>
            simp [get_credentials, hpy, hp, hmem, alookup_aset_self, map_fst_aset]
            exact hnd
        | none =>
            have hl : alookup hk (st.validators ++
                [(hk, ⟨"http://" ++ c.clientIp ++ c.pfx, true, []⟩)]) =
                some ⟨"http://" ++ c.clientIp ++ c.pfx, true, []⟩ := by
              rw [alookup_append_right hmem]
              simp [alookup]
            simp [get_credentials, hpy, hp, hmem, hl, List.map_append]
            rw [List.nodup_append]
            refine ⟨hnd, List.nodup_singleton _, ?_⟩
            intro a ha hb
            rw [List.mem_singleton] at hb
            subst hb
            exact ((alookup_eq_none_iff _ _).mp hmem) ha

theorem foldl_applyRegistration_nodup (mg : Metagraph) (msg sig : String) :
    ∀ (cs : List RegCall) (st : ServiceState),
      (st.validators.map Prod.fst).Nodup →
      (((cs.foldl (applyRegistration mg msg sig) st).validators).map Prod.fst).Nodup := by
  intro cs
  induction cs with
  | nil => intro st h; exact h
  | cons c rest ih =>
      intro st h
      rw [List.foldl_cons]
      exact ih _ (applyRegistration_keys_nodup mg msg sig st c h)

theorem applyRegistration_update_in_place (mg : Metagraph) (msg sig : String)
    (st : ServiceState) (c : RegCall) (hk : String) (r : ValidatorRec)
    (hpy : pyGet mg.hotkeys c.uid = some hk) (hp : c.pfx ≠ "")
    (hmem : alookup hk st.validators = some r) :
    (applyRegistration mg msg sig st c).validators.map Prod.fst =
      st.validators.map Prod.fst
  ∧ alookup hk (applyRegistration mg msg sig st c).validators =
      some { r with generate_endpoint := "http://" ++ c.clientIp ++ c.pfx, is_active := true } := by
  unfold applyRegistration
  simp [get_credentials, hpy, hp, hmem, alookup_aset_self, map_fst_aset]

/-- Claim C8 (confirmed): registration is idempotent per hotkey — after
any sequence of `get_credentials` calls the in-memory registry still has
pairwise-distinct hotkeys (at most one record each, as a Python dict
guarantees), and a successful re-registration of a known hotkey rewrites
that record's endpoint to `http://` + caller address + postfix with
`is_active = true`, in place, leaving the key set unchanged. -/
theorem c8_registration_idempotent (mg : Metagraph) (msg sig : String) (st : ServiceState)
    (hnd : (st.validators.map Prod.fst).Nodup) :
    (∀ cs : List RegCall,
      (((cs.foldl (applyRegistration mg msg sig) st).validators).map Prod.fst).Nodup)
  ∧ (∀ (c : RegCall) (hk : String) (r : ValidatorRec),
      pyGet mg.hotkeys c.uid = some hk → c.pfx ≠ "" →
      alookup hk st.validators = some r →
      (applyRegistration mg msg sig st c).validators.map Prod.fst =
        st.validators.map Prod.fst
    ∧ alookup hk (applyRegistration mg msg sig st c).validators =
        some { r with generate_endpoint := "http://" ++ c.clientIp ++ c.pfx, is_active := true }) :=
  ⟨fun cs => foldl_applyRegistration_nodup mg msg sig cs st hnd,
   fun c hk r hpy hp hmem =>
     applyRegistration_update_in_place mg msg sig st c hk r hpy hp hmem⟩

/-- Concrete instance of C8: re-registering the already-known hotkey
`"v1"` rewrites the endpoint in place and keeps the counters. -/
theorem c8_witness :
    (applyRegistration ⟨["v1"], [10]⟩ "m" "s"
        ⟨[("v1", ⟨"e", true, [("d", ⟨1, 2⟩)]⟩)], [], [], []⟩
        ⟨"ip", 0, "/g"⟩).validators.map Prod.fst = ["v1"]
  ∧ alookup "v1" (applyRegistration ⟨["v1"], [10]⟩ "m" "s"
        ⟨[("v1", ⟨"e", true, [("d", ⟨1, 2⟩)]⟩)], [], [], []⟩
        ⟨"ip", 0, "/g"⟩).validators = some ⟨"http://ip/g", true, [("d", ⟨1, 2⟩)]⟩ := by
  have h := (c8_registration_idempotent ⟨["v1"], [10]⟩ "m" "s"
      ⟨[("v1", ⟨"e", true, [("d", ⟨1, 2⟩)]⟩)], [], [], []⟩ (by decide)).2
      ⟨"ip", 0, "/g"⟩ "v1" ⟨"e", true, [("d", ⟨1, 2⟩)]⟩ (by decide) (by decide) (by decide)
  refine ⟨by rw [h.1]; rfl, by rw [h.2]; decide⟩

/-! ### Claim C6 -/

theorem filter_validators_lookup_not_mem (mem : List String) :
    ∀ (m s : List (String × ValidatorRec)) (hk : String), hk ∉ mem →
      alookup hk (filter_validators m s mem).1 = none := by
  intro m
  induction m with
  | nil => intro s hk _; rfl
  | cons p rest ih =>
      intro s hk hnot
      obtain ⟨k, r⟩ := p
      by_cases hm : k ∈ mem
      · have hne : k ≠ hk := fun hh => hnot (hh ▸ hm)
        simp only [filter_validators, hm, List.contains_iff_exists_mem_beq]
        simp [hm, alookup, hne, ih s hk hnot]
      · simp only [filter_validators]
        simp [hm, ih (adelete k s) hk hnot]

theorem filter_validators_lookup_mem (mem : List String) :
    ∀ (m s : List (String × ValidatorRec)) (hk : String), hk ∈ mem →
      alookup hk (filter_validators m s mem).1 =
        (alookup hk m).map (fun r => { r with is_active := false }) := by
  intro m
  induction m with
  | nil => intro s hk _; rfl
  | cons p rest ih =>
      intro s hk hin
      obtain ⟨k, r⟩ := p
      by_cases hm : k ∈ mem
      · by_cases hke : k = hk
        · subst hke
          simp [filter_validators, hm, alookup]
        · simp [filter_validators, hm, alookup, hke, ih s hk hin]
      · have hke : k ≠ hk := fun hh => hm (hh ▸ hin)
        simp [filter_validators, hm, alookup, hke, ih (adelete k s) hk hin]

theorem filter_validators_store_none (mem : List String) :
    ∀ (m s : List (String × ValidatorRec)) (hk : String),
      alookup hk s = none → alookup hk (filter_validators m s mem).2 = none := by
  intro m
  induction m with
  | nil => intro s hk h; exact h
  | cons p rest ih =>
      intro s hk h
      obtain ⟨k, r⟩ := p
      by_cases hm : k ∈ mem
      · simp [filter_validators, hm, ih s hk h]
      · have hdel : alookup hk (adelete k s) = none := by
          rw [alookup_eq_none_iff] at h ⊢
          intro hmem
          exact h ((List.Sublist.map Prod.fst (adelete_sublist k s)).subset hmem)
        simp [filter_validators, hm, ih (adelete k s) hk hdel]

theorem filter_validators_store_deleted (mem : List String) :
    ∀ (m s : List (String × ValidatorRec)) (hk : String),
      (s.map Prod.fst).Nodup → hk ∈ m.map Prod.fst → hk ∉ mem →
      alookup hk (filter_validators m s mem).2 = none := by
  intro m
  induction m with
  | nil => intro s hk _ hmem _; cases hmem
  | cons p rest ih =>
      intro s hk hs hmem hnot
      obtain ⟨k, r⟩ := p
      by_cases hm : k ∈ mem
      · have hke : hk ≠ k := fun hh => hnot (hh ▸ hm)
        have hmem' : hk ∈ rest.map Prod.fst := by
          rcases List.mem_cons.mp hmem with hh | hh
          · exact absurd hh hke
          · exact hh
        simp [filter_validators, hm, ih s hk hs hmem' hnot]
      · by_cases hke : hk = k
        · subst hke
          simp [filter_validators, hm,
            filter_validators_store_none mem rest (adelete hk s) hk
              (alookup_adelete_self hs)]
        · have hmem' : hk ∈ rest.map Prod.fst := by
            rcases List.mem_cons.mp hmem with hh | hh
            · exact absurd hh hke
            · exact hh
          simp [filter_validators, hm,
            ih (adelete k s) hk (map_fst_adelete_nodup hs) hmem' hnot]

theorem filter_validators_store_kept (mem : List String) :
    ∀ (m s : List (String × ValidatorRec)) (hk : String),
      (hk ∉ m.map Prod.fst ∨ hk ∈ mem) →
      alookup hk (filter_validators m s mem).2 = alookup hk s := by
  intro m
  induction m with
  | nil => intro s hk _; rfl
  | cons p rest ih =>
      intro s hk hcond
      obtain ⟨k, r⟩ := p
      have hcond' : hk ∉ rest.map Prod.fst ∨ hk ∈ mem := by
        rcases hcond with hno | hin
        · exact Or.inl (fun hh => hno (List.mem_cons_of_mem _ hh))
        · exact Or.inr hin
      by_cases hm : k ∈ mem
      · simp [filter_validators, hm, ih s hk hcond']
      · have hke : k ≠ hk := by
          intro hh
          subst hh
          rcases hcond with hno | hin
          · exact hno (List.mem_cons_self _ _)
          · exact hm hin
        rw [show (filter_validators ((k, r) :: rest) s mem).2 =
            (filter_validators rest (adelete k s) mem).2 by simp [filter_validators, hm]]
        rw [ih (adelete k s) hk hcond', alookup_adelete_ne hke]

/-- Claim C6 (confirmed): `filter_validators` deletes every in-memory
validator whose hotkey is not in the membership list from both the
in-memory registry and the persisted `validators` collection (the
store hypothesis is the Mongo `_id` uniqueness), and every surviving
validator has `is_active` reset to `false`; store documents of hotkeys
not held in memory, or of surviving members, are untouched. -/
theorem c6_filter_validators_spec (m s : List (String × ValidatorRec)) (mem : List String)
    (hs : (s.map Prod.fst).Nodup) :
    (∀ hk, hk ∉ mem → alookup hk (filter_validators m s mem).1 = none)
  ∧ (∀ hk, hk ∈ mem →
      alookup hk (filter_validators m s mem).1 =
        (alookup hk m).map (fun r => { r with is_active := false }))
  ∧ (∀ hk, hk ∈ m.map Prod.fst → hk ∉ mem →
      alookup hk (filter_validators m s mem).2 = none)
  ∧ (∀ hk, hk ∉ m.map Prod.fst ∨ hk ∈ mem →
      alookup hk (filter_validators m s mem).2 = alookup hk s) :=
  ⟨fun hk h => filter_validators_lookup_not_mem mem m s hk h,
   fun hk h => filter_validators_lookup_mem mem m s hk h,
   fun hk h1 h2 => filter_validators_store_deleted mem m s hk hs h1 h2,
   fun hk h => filter_validators_store_kept mem m s hk h⟩

/-- Concrete instance of C6: membership `["b"]` removes `"a"` from
memory and store and deactivates the surviving `"b"`. -/
theorem c6_witness :
    alookup "a" (filter_validators [("a", ⟨"e", true, []⟩), ("b", ⟨"f", true, []⟩)]
        [("a", ⟨"e", true, []⟩)] ["b"]).1 = none
  ∧ alookup "b" (filter_validators [("a", ⟨"e", true, []⟩), ("b", ⟨"f", true, []⟩)]
        [("a", ⟨"e", true, []⟩)] ["b"]).1 = some ⟨"f", false, []⟩
  ∧ alookup "a" (filter_validators [("a", ⟨"e", true, []⟩), ("b", ⟨"f", true, []⟩)]
        [("a", ⟨"e", true, []⟩)] ["b"]).2 = none := by
  have h := c6_filter_validators_spec [("a", ⟨"e", true, []⟩), ("b", ⟨"f", true, []⟩)]
    [("a", ⟨"e", true, []⟩)] ["b"] (by decide)
  refine ⟨h.1 "a" (by decide), ?_, h.2.2.1 "a" (by decide) (by decide)⟩
  rw [h.2.1 "b" (by decide)]
  decide
